import Mathlib

/-!
Shallow embedding of the lmath geometry library: points (`src/math/point.rs`),
planes (`src/math/plane.rs`) and quaternions (`src/math/quat.rs`).

The generic scalar parameter `T` (instantiated at floating-point types in the
source) is modelled as the real numbers `ℝ`.  The external vector/matrix/ray
collaborators (`Vec2`, `Vec3`, `Mat3`, `Ray2`, `Ray3`) and the approximate
equality contract are not part of the sources; they are modelled from the
specification, as indicated on each such definition.
-/

noncomputable section

open Classical

/-- Modelled from the spec: the external two-dimensional vector type, with
componentwise arithmetic, `dot`, `magnitude2`, `magnitude` and `normalize`. -/
@[ext]
structure Vec2 where
  x : ℝ
  y : ℝ

/-- Modelled from the spec: the external three-dimensional vector type, with
componentwise arithmetic, `dot`, `cross`, `magnitude2`, `magnitude` and
`normalize`. -/
@[ext]
structure Vec3 where
  x : ℝ
  y : ℝ
  z : ℝ

/-- Modelled from the spec: the zero vector. -/
def Vec2.zero : Vec2 := ⟨0, 0⟩

/-- Modelled from the spec: the zero vector. -/
def Vec3.zero : Vec3 := ⟨0, 0, 0⟩

/-- Modelled from the spec: componentwise vector addition. -/
def Vec3.add_v (a b : Vec3) : Vec3 := ⟨a.x + b.x, a.y + b.y, a.z + b.z⟩

/-- Modelled from the spec: componentwise vector subtraction. -/
def Vec3.sub_v (a b : Vec3) : Vec3 := ⟨a.x - b.x, a.y - b.y, a.z - b.z⟩

/-- Modelled from the spec: componentwise negation. -/
def Vec3.neg (a : Vec3) : Vec3 := ⟨-a.x, -a.y, -a.z⟩

/-- Modelled from the spec: multiplication of a vector by a scalar. -/
def Vec3.mul_s (a : Vec3) (s : ℝ) : Vec3 := ⟨a.x * s, a.y * s, a.z * s⟩

/-- Modelled from the spec: division of a vector by a scalar. -/
def Vec3.div_s (a : Vec3) (s : ℝ) : Vec3 := ⟨a.x / s, a.y / s, a.z / s⟩

/-- Modelled from the spec: the dot product. -/
def Vec3.dot (a b : Vec3) : ℝ := a.x * b.x + a.y * b.y + a.z * b.z

/-- Modelled from the spec: the three-dimensional cross product. -/
def Vec3.cross (a b : Vec3) : Vec3 :=
  ⟨a.y * b.z - a.z * b.y, a.z * b.x - a.x * b.z, a.x * b.y - a.y * b.x⟩

/-- Modelled from the spec: the squared magnitude of a vector. -/
def Vec3.magnitude2 (a : Vec3) : ℝ := a.dot a

/-- Modelled from the spec: the magnitude of a vector. -/
def Vec3.magnitude (a : Vec3) : ℝ := Real.sqrt a.magnitude2

/-- Modelled from the spec: `normalize` scales the vector by the reciprocal of
its magnitude. -/
def Vec3.normalize (a : Vec3) : Vec3 := a.mul_s (1 / a.magnitude)

/-- Modelled from the spec: multiplication of a vector by a scalar. -/
def Vec2.mul_s (a : Vec2) (s : ℝ) : Vec2 := ⟨a.x * s, a.y * s⟩

/-- Modelled from the spec: the dot product. -/
def Vec2.dot (a b : Vec2) : ℝ := a.x * b.x + a.y * b.y

/-- Modelled from the spec: the squared magnitude of a vector. -/
def Vec2.magnitude2 (a : Vec2) : ℝ := a.dot a

/-- Modelled from the spec: the magnitude of a vector. -/
def Vec2.magnitude (a : Vec2) : ℝ := Real.sqrt a.magnitude2

/-- Modelled from the spec: `normalize` scales the vector by the reciprocal of
its magnitude. -/
def Vec2.normalize (a : Vec2) : Vec2 := a.mul_s (1 / a.magnitude)

/-- Modelled from the spec: the scalar type's default approximate-equality
tolerance (the floating-point default epsilon `1.0e-6`). -/
def approx_epsilon : ℝ := 1 / 1000000

/-- Modelled from the spec: approximate equality of two scalars under an
explicit tolerance. -/
def Real.approx_eq_eps (a b eps : ℝ) : Prop := |a - b| < eps

/-- Modelled from the spec: approximate equality of two scalars under the
default tolerance. -/
def Real.approx_eq (a b : ℝ) : Prop := Real.approx_eq_eps a b approx_epsilon

/-- Field-wise approximate equality for `Vec3`, following the composite rule of
`impl_approx!` in `src/macros.rs` (conjunction over the fields). -/
def Vec3.approx_eq_eps (a b : Vec3) (eps : ℝ) : Prop :=
  Real.approx_eq_eps a.x b.x eps ∧ Real.approx_eq_eps a.y b.y eps ∧
    Real.approx_eq_eps a.z b.z eps

/-- Approximate equality for `Vec3` under the default tolerance
(`approx_eq` of `impl_approx!` in `src/macros.rs`). -/
def Vec3.approx_eq (a b : Vec3) : Prop := a.approx_eq_eps b approx_epsilon

/-- A three-dimensional coordinate vector (`Point3` in `src/math/point.rs`). -/
@[ext]
structure Point3 where
  x : ℝ
  y : ℝ
  z : ℝ

/-- A two-dimensional coordinate vector (`Point2` in `src/math/point.rs`). -/
@[ext]
structure Point2 where
  x : ℝ
  y : ℝ

/-- Modelled from the spec: the external `Ray3` value type with an origin point
and a direction vector. -/
@[ext]
structure Ray3 where
  origin : Point3
  direction : Vec3

/-- Modelled from the spec: the external `Ray2` value type with an origin point
and a direction vector. -/
@[ext]
structure Ray2 where
  origin : Point2
  direction : Vec2

/-- `Point3::origin`: the coordinate `[0, 0, 0]`. -/
def Point3.origin : Point3 := ⟨0, 0, 0⟩

/-- `Point3::as_vec3` (generated by `impl_as_vec!`): the point viewed as a
vector, modelled as an explicit field copy. -/
def Point3.as_vec3 (p : Point3) : Vec3 := ⟨p.x, p.y, p.z⟩

/-- `Point3::translate_v`: applies a displacement vector to the point. -/
def Point3.translate_v (p : Point3) (offset : Vec3) : Point3 :=
  ⟨p.x + offset.x, p.y + offset.y, p.z + offset.z⟩

/-- `Point3::displacement`: the displacement required to move `other` to `p`
(componentwise `p - other`); `p - other` in operator form. -/
def Point3.displacement (p other : Point3) : Vec3 :=
  ⟨p.x - other.x, p.y - other.y, p.z - other.z⟩

/-- `Point3::distance2`: the squared distance to the other point. -/
def Point3.distance2 (p other : Point3) : ℝ := (other.displacement p).magnitude2

/-- `Point3::distance`: the scalar distance to the other point. -/
def Point3.distance (p other : Point3) : ℝ := Real.sqrt (other.distance2 p)

/-- `Point3::direction`: a normalized direction vector pointing to the other
point, `normalize(other - p)`; no degeneracy check is made. -/
def Point3.direction (p other : Point3) : Vec3 := (other.displacement p).normalize

/-- `Point3::ray_to`: a normalized ray towards the other point. -/
def Point3.ray_to (p other : Point3) : Ray3 := ⟨p, p.direction other⟩

/-- `Point2::origin`: the coordinate `[0, 0]`. -/
def Point2.origin : Point2 := ⟨0, 0⟩

/-- `Point2::displacement`: componentwise `p - other`. -/
def Point2.displacement (p other : Point2) : Vec2 := ⟨p.x - other.x, p.y - other.y⟩

/-- `Point2::distance2`: the squared distance to the other point. -/
def Point2.distance2 (p other : Point2) : ℝ := (other.displacement p).magnitude2

/-- `Point2::direction`: `normalize(other - p)`; no degeneracy check is made. -/
def Point2.direction (p other : Point2) : Vec2 := (other.displacement p).normalize

/-- `Point2::ray_to`: a normalized ray towards the other point. -/
def Point2.ray_to (p other : Point2) : Ray2 := ⟨p, p.direction other⟩

/-- Modelled from the spec: the external 3×3 matrix type, represented by its
three column vectors ("construction from nine scalars or three column vectors
and a fallible inverse"). -/
@[ext]
structure Mat3 where
  c0 : Vec3
  c1 : Vec3
  c2 : Vec3

/-- Modelled from the spec: matrix–vector multiplication, the linear
combination of the columns by the vector's components. -/
def Mat3.mul_v (m : Mat3) (v : Vec3) : Vec3 :=
  ((m.c0.mul_s v.x).add_v (m.c1.mul_s v.y)).add_v (m.c2.mul_s v.z)

/-- Modelled from the spec: the determinant, the triple product of the
columns. -/
def Mat3.determinant (m : Mat3) : ℝ := m.c0.dot (m.c1.cross m.c2)

/-- Modelled from the spec: the fallible inverse; inversion fails when the
matrix is singular, otherwise the rows of the inverse are the cross products of
the columns divided by the determinant (Cramer's rule). -/
def Mat3.inverse (m : Mat3) : Option Mat3 :=
  if m.determinant = 0 then none
  else
    let d := m.determinant
    let r0 := (m.c1.cross m.c2).div_s d
    let r1 := (m.c2.cross m.c0).div_s d
    let r2 := (m.c0.cross m.c1).div_s d
    some ⟨⟨r0.x, r1.x, r2.x⟩, ⟨r0.y, r1.y, r2.y⟩, ⟨r0.z, r1.z, r2.z⟩⟩

/-- A plane from the equation `Ax + By + Cz + D = 0`
(`Plane3` in `src/math/plane.rs`). -/
@[ext]
structure Plane3 where
  normal : Vec3
  distance : ℝ

/-- `Plane3::from_abcd`: direct construction from the four coefficients of the
plane equation; no normalization is performed. -/
def Plane3.from_abcd (a b c d : ℝ) : Plane3 := ⟨⟨a, b, c⟩, d⟩

/-- `Plane3::from_nd`: construction from a normal vector and a scalar
distance. -/
def Plane3.from_nd (normal : Vec3) (distance : ℝ) : Plane3 := ⟨normal, distance⟩

/-- `Plane3::distance` (the method; named `distanceTo` here because the
structure field is already called `distance`): `dot(normal, pos) + distance`. -/
def Plane3.distanceTo (p : Plane3) (pos : Point3) : ℝ :=
  p.normal.dot pos.as_vec3 + p.distance

/-- `Plane3::contains`: `true` iff `pos` is located behind the plane. -/
def Plane3.contains (p : Plane3) (pos : Point3) : Prop := p.distanceTo pos < 0

/-- `Plane3::intersection_r`: the source body is `fail!(~"not yet implemented")`,
an unconditional abort, modelled as an `Except.error` carrying the failure
message. -/
def Plane3.intersection_r (_p : Plane3) (_ray : Ray3) : Except String Point3 :=
  Except.error "not yet implemented"

/-- `Plane3::intersects`: the source body is `fail!(~"not yet implemented")`,
an unconditional abort, modelled as an `Except.error` carrying the failure
message. -/
def Plane3.intersects (_p : Plane3) (_ray : Ray3) : Except String Bool :=
  Except.error "not yet implemented"

/-- `Plane3::from_3p`: the plane through the three points `a`, `b` and `c`, or
`None` when the cross product of the two edge vectors is approximately zero. -/
def Plane3.from_3p (a b c : Point3) : Option Plane3 :=
  let v0 := b.displacement a
  let v1 := c.displacement a
  let normal := v0.cross v1
  if normal.approx_eq Vec3.zero then none
  else
    let n := normal.normalize
    some (Plane3.from_nd n (-(a.as_vec3.dot n)))

/-- `Plane3::intersection_3pl`: the three-plane intersection; builds the matrix
whose columns are the three normals (per the spec's reading of the `Mat3::new`
call) and, when it is invertible, returns
`origin + inverse * (d_self, d_a, d_b)`. -/
def Plane3.intersection_3pl (p other_a other_b : Plane3) : Option Point3 :=
  let mx : Mat3 := ⟨p.normal, other_a.normal, other_b.normal⟩
  mx.inverse.map fun m =>
    Point3.origin.translate_v
      (m.mul_v ⟨p.distance, other_a.distance, other_b.distance⟩)

/-- `Plane3::intersection_2pl`: the ray created from the two-plane
intersection; `None` when the cross product of the normals is approximately
zero, otherwise the origin comes from the three-plane intersection with an
auxiliary plane through the origin whose normal is that cross product. -/
def Plane3.intersection_2pl (p other : Plane3) : Option Ray3 :=
  let dir := p.normal.cross other.normal
  if dir.approx_eq Vec3.zero then none
  else
    ((Plane3.from_nd dir 0).intersection_3pl p other).map fun origin =>
      ⟨origin, dir⟩

/-- A quaternion in scalar/vector form (`Quat` in `src/math/quat.rs`). -/
@[ext]
structure Quat where
  s : ℝ
  v : Vec3

/-- `Quat::from_sv`: construction from a scalar and a vector. -/
def Quat.from_sv (s : ℝ) (v : Vec3) : Quat := ⟨s, v⟩

/-- `Quat::new`: construction from the scalar component and the three imaginary
components. -/
def Quat.new (w xi yj zk : ℝ) : Quat := Quat.from_sv w ⟨xi, yj, zk⟩

/-- `Quat::identity`: the multiplicative identity `1 + 0i + 0j + 0k`. -/
def Quat.identity : Quat := Quat.from_sv 1 Vec3.zero

/-- `Quat::mul_s`: multiplying the quaternion by a scalar. -/
def Quat.mul_s (q : Quat) (value : ℝ) : Quat := Quat.from_sv (q.s * value) (q.v.mul_s value)

/-- `Quat::div_s`: dividing the quaternion by a scalar. -/
def Quat.div_s (q : Quat) (value : ℝ) : Quat := Quat.from_sv (q.s / value) (q.v.div_s value)

/-- `Quat::mul_v`: rotating a vector by the quaternion via the optimized double
cross-product form `vec + 2 * cross(v, cross(v, vec) + vec * s)`. -/
def Quat.mul_v (q : Quat) (vec : Vec3) : Vec3 :=
  let tmp := (q.v.cross vec).add_v (vec.mul_s q.s)
  ((q.v.cross tmp).mul_s 2).add_v vec

/-- `Quat::add_q`: componentwise sum over the four scalar components. -/
def Quat.add_q (q other : Quat) : Quat :=
  Quat.new (q.s + other.s) (q.v.x + other.v.x) (q.v.y + other.v.y) (q.v.z + other.v.z)

/-- `Quat::sub_q`: componentwise difference over the four scalar components. -/
def Quat.sub_q (q other : Quat) : Quat :=
  Quat.new (q.s - other.s) (q.v.x - other.v.x) (q.v.y - other.v.y) (q.v.z - other.v.z)

/-- `Quat::mul_q`: the Hamilton product, with the explicit per-component signs
of the source. -/
def Quat.mul_q (q other : Quat) : Quat :=
  Quat.new
    (q.s * other.s - q.v.x * other.v.x - q.v.y * other.v.y - q.v.z * other.v.z)
    (q.s * other.v.x + q.v.x * other.s + q.v.y * other.v.z - q.v.z * other.v.y)
    (q.s * other.v.y + q.v.y * other.s + q.v.z * other.v.x - q.v.x * other.v.z)
    (q.s * other.v.z + q.v.z * other.s + q.v.x * other.v.y - q.v.y * other.v.x)

/-- `Quat::dot`: the dot product of two quaternions. -/
def Quat.dot (q other : Quat) : ℝ := q.s * other.s + q.v.dot other.v

/-- `Quat::conjugate`: negate the vector part, keep the scalar part. -/
def Quat.conjugate (q : Quat) : Quat := Quat.from_sv q.s q.v.neg

/-- `Quat::magnitude2`: the squared magnitude `s*s + v·v`. -/
def Quat.magnitude2 (q : Quat) : ℝ := q.s * q.s + q.v.magnitude2

/-- `Quat::inverse`: `conjugate / magnitude2`. -/
def Quat.inverse (q : Quat) : Quat := q.conjugate.div_s q.magnitude2

/-- `Quat::magnitude`: the magnitude `sqrt(magnitude2)`. -/
def Quat.magnitude (q : Quat) : ℝ := Real.sqrt q.magnitude2

/-- `Quat::normalize`: scaling by the reciprocal of the magnitude. -/
def Quat.normalize (q : Quat) : Quat := q.mul_s (1 / q.magnitude)

/-- `Quat::nlerp`: normalised linear interpolation
`normalize(self*(1-amount) + other*amount)`. -/
def Quat.nlerp (q other : Quat) (amount : ℝ) : Quat :=
  ((q.mul_s (1 - amount)).add_q (other.mul_s amount)).normalize

/-- Modelled from the spec: the scalar `clamp` operation restricting a value to
the interval `[lo, hi]`. -/
def clampScalar (x lo hi : ℝ) : ℝ := max lo (min x hi)

/-- `Quat::slerp`: spherical linear interpolation, falling back to `nlerp` when
the dot product exceeds the `0.9995` threshold, otherwise clamping the dot
product into `[-1, 1]` and following the trigonometric path. -/
def Quat.slerp (q other : Quat) (amount : ℝ) : Quat :=
  let d := q.dot other
  let dot_threshold : ℝ := 0.9995
  if d > dot_threshold then q.nlerp other amount
  else
    let robust_dot := clampScalar d (-1) 1
    let theta_0 := Real.arccos robust_dot
    let theta := theta_0 * amount
    let qn := (other.sub_q (q.mul_s robust_dot)).normalize
    (q.mul_s (Real.cos theta)).add_q (qn.mul_s (Real.sin theta))

/-- Field-wise approximate equality for `Quat`, following
`impl_approx!(Quat { s, v })` in `src/math/quat.rs`. -/
def Quat.approx_eq_eps (q other : Quat) (eps : ℝ) : Prop :=
  Real.approx_eq_eps q.s other.s eps ∧ q.v.approx_eq_eps other.v eps

/-- Approximate equality for `Quat` under the default tolerance. -/
def Quat.approx_eq (q other : Quat) : Prop := q.approx_eq_eps other approx_epsilon

theorem Real.approx_eq_of_eq {a b : ℝ} (h : a = b) : Real.approx_eq a b := by
  simp [Real.approx_eq, Real.approx_eq_eps, h, approx_epsilon]

theorem Vec3.magnitude2_nonneg (v : Vec3) : 0 ≤ v.magnitude2 := by
  have hx := mul_self_nonneg v.x
  have hy := mul_self_nonneg v.y
  have hz := mul_self_nonneg v.z
  simp only [Vec3.magnitude2, Vec3.dot]
  linarith

theorem Vec3.magnitude2_pos (v : Vec3) (hv : ¬(v.x = 0 ∧ v.y = 0 ∧ v.z = 0)) :
    0 < v.magnitude2 := by
  rcases lt_or_eq_of_le v.magnitude2_nonneg with h | h
  · exact h
  · exfalso
    apply hv
    have hx := mul_self_nonneg v.x
    have hy := mul_self_nonneg v.y
    have hz := mul_self_nonneg v.z
    simp only [Vec3.magnitude2, Vec3.dot] at h
    refine ⟨?_, ?_, ?_⟩ <;> nlinarith

theorem Vec3.magnitude_normalize (v : Vec3) (hv : 0 < v.magnitude2) :
    v.normalize.magnitude = 1 := by
  have hs : 0 < Real.sqrt v.magnitude2 := Real.sqrt_pos.mpr hv
  have hk : v.normalize.magnitude2 = (1 / Real.sqrt v.magnitude2) ^ 2 * v.magnitude2 := by
    simp only [Vec3.normalize, Vec3.mul_s, Vec3.magnitude2, Vec3.dot, Vec3.magnitude]
    ring
  rw [Vec3.magnitude, hk, Real.sqrt_mul (sq_nonneg _), Real.sqrt_sq (by positivity)]
  field_simp

theorem Vec2.magnitude2_nonneg_dim2 (v : Vec2) : 0 ≤ v.magnitude2 := by
  have hx := mul_self_nonneg v.x
  have hy := mul_self_nonneg v.y
  simp only [Vec2.magnitude2, Vec2.dot]
  linarith

theorem Vec2.magnitude2_pos_dim2 (v : Vec2) (hv : ¬(v.x = 0 ∧ v.y = 0)) :
    0 < v.magnitude2 := by
  rcases lt_or_eq_of_le v.magnitude2_nonneg_dim2 with h | h
  · exact h
  · exfalso
    apply hv
    have hx := mul_self_nonneg v.x
    have hy := mul_self_nonneg v.y
    simp only [Vec2.magnitude2, Vec2.dot] at h
    constructor <;> nlinarith

theorem Vec2.magnitude_normalize_dim2 (v : Vec2) (hv : 0 < v.magnitude2) :
    v.normalize.magnitude = 1 := by
  have hs : 0 < Real.sqrt v.magnitude2 := Real.sqrt_pos.mpr hv
  have hk : v.normalize.magnitude2 = (1 / Real.sqrt v.magnitude2) ^ 2 * v.magnitude2 := by
    simp only [Vec2.normalize, Vec2.mul_s, Vec2.magnitude2, Vec2.dot, Vec2.magnitude]
    ring
  rw [Vec2.magnitude, hk, Real.sqrt_mul (sq_nonneg _), Real.sqrt_sq (by positivity)]
  field_simp

/-- Claim C2: calling `intersection_3pl` on the planes built by
`from_abcd(1,0,0,1)`, `from_abcd(0,-1,0,2)` and `from_abcd(0,0,1,1)` (the first
plane as receiver) returns `Some(Point3(1, -2, 1))`. -/
theorem c2_intersection_3pl_concrete :
    Plane3.intersection_3pl (Plane3.from_abcd 1 0 0 1) (Plane3.from_abcd 0 (-1) 0 2)
      (Plane3.from_abcd 0 0 1 1) = some ⟨1, -2, 1⟩ := by
  norm_num [Plane3.intersection_3pl, Plane3.from_abcd, Mat3.inverse, Mat3.determinant,
    Mat3.mul_v, Vec3.cross, Vec3.dot, Vec3.div_s, Vec3.mul_s, Vec3.add_v,
    Point3.origin, Point3.translate_v]

/-- Claim C5: for every plane and every ray, `intersection_r` and `intersects`
abort unconditionally (modelled as returning the `not yet implemented` error)
instead of producing an intersection point or a boolean result. -/
theorem c5_ray_ops_unimplemented (p : Plane3) (r : Ray3) :
    p.intersection_r r = Except.error "not yet implemented" ∧
      p.intersects r = Except.error "not yet implemented" :=
  ⟨rfl, rfl⟩

/-- Claim C7: whenever `dot(q1, q2)` exceeds the `0.9995` threshold,
`slerp(q1, q2, t)` equals `nlerp(q1, q2, t)` (the fallback branch is taken, so
the two agree exactly, in particular within epsilon). -/
theorem c7_slerp_eq_nlerp_when_close (q1 q2 : Quat) (t : ℝ)
    (h : q1.dot q2 > 0.9995) : q1.slerp q2 t = q1.nlerp q2 t := by
  simp only [Quat.slerp]
  rw [if_pos h]

theorem c7_slerp_eq_nlerp_when_close_witness :
    Quat.identity.dot Quat.identity > 0.9995 ∧
      Quat.identity.slerp Quat.identity (1 / 2) =
        Quat.identity.nlerp Quat.identity (1 / 2) := by
  have h : Quat.identity.dot Quat.identity > 0.9995 := by
    norm_num [Quat.dot, Quat.identity, Quat.from_sv, Vec3.dot, Vec3.zero]
  exact ⟨h, c7_slerp_eq_nlerp_when_close _ _ _ h⟩

/-- Claim C9: the Hamilton product `mul_q` is associative (here even exactly,
hence approximately), and it is not commutative in general: the quaternions
`i` and `j` multiply to different results in the two orders. -/
theorem c9_mul_q_assoc_not_comm :
    (∀ q1 q2 q3 : Quat,
        (q1.mul_q (q2.mul_q q3)).approx_eq ((q1.mul_q q2).mul_q q3)) ∧
      Quat.mul_q (Quat.new 0 1 0 0) (Quat.new 0 0 1 0) ≠
        Quat.mul_q (Quat.new 0 0 1 0) (Quat.new 0 1 0 0) := by
  constructor
  · intro q1 q2 q3
    have hex : q1.mul_q (q2.mul_q q3) = (q1.mul_q q2).mul_q q3 := by
      simp only [Quat.mul_q, Quat.new, Quat.from_sv]
      ext <;> dsimp <;> ring
    rw [hex]
    exact ⟨Real.approx_eq_of_eq rfl, Real.approx_eq_of_eq rfl,
      Real.approx_eq_of_eq rfl, Real.approx_eq_of_eq rfl⟩
  · intro h
    have hz := congrArg (fun q : Quat => q.v.z) h
    norm_num [Quat.mul_q, Quat.new, Quat.from_sv] at hz

/-- Claim C1: at the linearly independent planes `x + 1 = 0`, `-y + 2 = 0` and
`z + 1 = 0` (the repository's own test input), `intersection_3pl` returns the
point `(1, -2, 1)`, whose signed distance from the first plane is `2` — not
approximately `0` as the claim requires (the true intersection is
`(-1, 2, -1)`). -/
theorem c1_intersection_3pl_point_not_on_planes :
    Plane3.intersection_3pl (Plane3.from_abcd 1 0 0 1) (Plane3.from_abcd 0 (-1) 0 2)
      (Plane3.from_abcd 0 0 1 1) = some ⟨1, -2, 1⟩ ∧
    (Plane3.from_abcd 1 0 0 1).distanceTo ⟨1, -2, 1⟩ = 2 ∧
    ¬ Real.approx_eq ((Plane3.from_abcd 1 0 0 1).distanceTo ⟨1, -2, 1⟩) 0 := by
  refine ⟨?_, ?_, ?_⟩
  · norm_num [Plane3.intersection_3pl, Plane3.from_abcd, Mat3.inverse, Mat3.determinant,
      Mat3.mul_v, Vec3.cross, Vec3.dot, Vec3.div_s, Vec3.mul_s, Vec3.add_v,
      Point3.origin, Point3.translate_v]
  · norm_num [Plane3.distanceTo, Plane3.from_abcd, Vec3.dot, Point3.as_vec3]
  · norm_num [Plane3.distanceTo, Plane3.from_abcd, Vec3.dot, Point3.as_vec3,
      Real.approx_eq, Real.approx_eq_eps, approx_epsilon, abs_lt]

/-- Claim C3: `from_3p(a, b, c)` returns `None` if and only if
`cross(b - a, c - a)` approximately equals the zero vector under the default
epsilon. -/
theorem c3_from_3p_none_iff (a b c : Point3) :
    Plane3.from_3p a b c = none ↔
      ((b.displacement a).cross (c.displacement a)).approx_eq Vec3.zero := by
  by_cases h : ((b.displacement a).cross (c.displacement a)).approx_eq Vec3.zero
  · simp [Plane3.from_3p, h]
  · simp [Plane3.from_3p, h]

/-- Claim C4: for a non-degenerate triple of points (edge-vector cross product
not approximately zero), `from_3p` returns `Some(plane)` whose normal has unit
magnitude and whose signed distance to each of the three points is
approximately `0` (here exactly `0`). -/
theorem c4_from_3p_plane_through_points (a b c : Point3)
    (h : ¬ ((b.displacement a).cross (c.displacement a)).approx_eq Vec3.zero) :
    ∃ pl, Plane3.from_3p a b c = some pl ∧ pl.normal.magnitude = 1 ∧
      Real.approx_eq (pl.distanceTo a) 0 ∧ Real.approx_eq (pl.distanceTo b) 0 ∧
      Real.approx_eq (pl.distanceTo c) 0 := by
  have hzero_imp :
      (((b.displacement a).cross (c.displacement a)).x = 0 ∧
        ((b.displacement a).cross (c.displacement a)).y = 0 ∧
        ((b.displacement a).cross (c.displacement a)).z = 0) →
      ((b.displacement a).cross (c.displacement a)).approx_eq Vec3.zero := by
    rintro ⟨h1, h2, h3⟩
    refine ⟨?_, ?_, ?_⟩ <;>
      · simp only [h1, h2, h3, Real.approx_eq_eps, Vec3.zero, approx_epsilon]
        norm_num
  have hpos : 0 < ((b.displacement a).cross (c.displacement a)).magnitude2 :=
    Vec3.magnitude2_pos _ (fun hz => h (hzero_imp hz))
  refine ⟨Plane3.from_nd ((b.displacement a).cross (c.displacement a)).normalize
      (-(a.as_vec3.dot ((b.displacement a).cross (c.displacement a)).normalize)),
      ?_, ?_, ?_, ?_, ?_⟩
  · simp only [Plane3.from_3p]
    rw [if_neg h]
  · exact Vec3.magnitude_normalize _ hpos
  · apply Real.approx_eq_of_eq
    simp only [Plane3.distanceTo, Plane3.from_nd, Vec3.normalize, Vec3.mul_s, Vec3.cross,
      Vec3.dot, Vec3.magnitude, Vec3.magnitude2, Point3.as_vec3, Point3.displacement]
    ring
  · apply Real.approx_eq_of_eq
    simp only [Plane3.distanceTo, Plane3.from_nd, Vec3.normalize, Vec3.mul_s, Vec3.cross,
      Vec3.dot, Vec3.magnitude, Vec3.magnitude2, Point3.as_vec3, Point3.displacement]
    ring
  · apply Real.approx_eq_of_eq
    simp only [Plane3.distanceTo, Plane3.from_nd, Vec3.normalize, Vec3.mul_s, Vec3.cross,
      Vec3.dot, Vec3.magnitude, Vec3.magnitude2, Point3.as_vec3, Point3.displacement]
    ring

theorem c4_from_3p_plane_through_points_witness :
    ¬ ((Point3.displacement ⟨1, 0, 0⟩ ⟨0, 0, 0⟩).cross
        (Point3.displacement ⟨0, 1, 0⟩ ⟨0, 0, 0⟩)).approx_eq Vec3.zero ∧
      ∃ pl, Plane3.from_3p ⟨0, 0, 0⟩ ⟨1, 0, 0⟩ ⟨0, 1, 0⟩ = some pl ∧
        pl.normal.magnitude = 1 ∧
        Real.approx_eq (pl.distanceTo ⟨0, 0, 0⟩) 0 ∧
        Real.approx_eq (pl.distanceTo ⟨1, 0, 0⟩) 0 ∧
        Real.approx_eq (pl.distanceTo ⟨0, 1, 0⟩) 0 := by
  have h : ¬ ((Point3.displacement ⟨1, 0, 0⟩ ⟨0, 0, 0⟩).cross
      (Point3.displacement ⟨0, 1, 0⟩ ⟨0, 0, 0⟩)).approx_eq Vec3.zero := by
    norm_num [Vec3.approx_eq, Vec3.approx_eq_eps, Real.approx_eq_eps, approx_epsilon,
      Vec3.cross, Point3.displacement, Vec3.zero, abs_lt]
  exact ⟨h, c4_from_3p_plane_through_points _ _ _ h⟩

/-- Claim C6: at the non-parallel planes `x + 1 = 0` and `y + 1 = 0`,
`intersection_2pl` returns a ray whose direction is the cross product of the
normals, but whose origin `(1, 0, 1)` has signed distance `2` from the first
plane — not approximately `0` as the claim requires. -/
theorem c6_intersection_2pl_origin_not_on_planes :
    Plane3.intersection_2pl (Plane3.from_abcd 1 0 0 1) (Plane3.from_abcd 0 1 0 1) =
      some ⟨⟨1, 0, 1⟩, (Vec3.mk 1 0 0).cross ⟨0, 1, 0⟩⟩ ∧
    (Vec3.mk 1 0 0).cross ⟨0, 1, 0⟩ = ⟨0, 0, 1⟩ ∧
    (Plane3.from_abcd 1 0 0 1).distanceTo ⟨1, 0, 1⟩ = 2 ∧
    ¬ Real.approx_eq ((Plane3.from_abcd 1 0 0 1).distanceTo ⟨1, 0, 1⟩) 0 := by
  refine ⟨?_, ?_, ?_, ?_⟩
  · norm_num [Plane3.intersection_2pl, Plane3.intersection_3pl, Plane3.from_abcd,
      Plane3.from_nd, Mat3.inverse, Mat3.determinant, Mat3.mul_v, Vec3.cross, Vec3.dot,
      Vec3.div_s, Vec3.mul_s, Vec3.add_v, Point3.origin, Point3.translate_v,
      Vec3.approx_eq, Vec3.approx_eq_eps, Real.approx_eq_eps, approx_epsilon,
      Vec3.zero, abs_lt]
  · norm_num [Vec3.cross]
  · norm_num [Plane3.distanceTo, Plane3.from_abcd, Vec3.dot, Point3.as_vec3]
  · norm_num [Plane3.distanceTo, Plane3.from_abcd, Vec3.dot, Point3.as_vec3,
      Real.approx_eq, Real.approx_eq_eps, approx_epsilon, abs_lt]

/-- Claim C8: for a unit-norm quaternion, the optimized rotation `mul_v`
coincides with the vector part of the sandwich product `q * (0, w) * q⁻¹`
computed with the Hamilton product `mul_q` and `inverse`. -/
theorem c8_mul_v_eq_sandwich (q : Quat) (w : Vec3) (h : q.magnitude2 = 1) :
    q.mul_v w = ((q.mul_q (Quat.from_sv 0 w)).mul_q q.inverse).v := by
  have h' : q.s * q.s + (q.v.x * q.v.x + q.v.y * q.v.y + q.v.z * q.v.z) = 1 := by
    simpa [Quat.magnitude2, Vec3.magnitude2, Vec3.dot] using h
  simp only [Quat.mul_v, Quat.mul_q, Quat.inverse, Quat.conjugate, Quat.div_s,
    Quat.magnitude2, Vec3.magnitude2, Vec3.dot, Vec3.cross, Vec3.add_v, Vec3.mul_s,
    Vec3.div_s, Vec3.neg, Quat.from_sv, Quat.new]
  rw [h']
  ext
  · dsimp
    field_simp
    linear_combination (-w.x) * h'
  · dsimp
    field_simp
    linear_combination (-w.y) * h'
  · dsimp
    field_simp
    linear_combination (-w.z) * h'

theorem c8_mul_v_eq_sandwich_witness :
    Quat.magnitude2 ⟨3 / 5, ⟨4 / 5, 0, 0⟩⟩ = 1 ∧
      Quat.mul_v ⟨3 / 5, ⟨4 / 5, 0, 0⟩⟩ ⟨1, 2, 3⟩ =
        ((Quat.mul_q ⟨3 / 5, ⟨4 / 5, 0, 0⟩⟩ (Quat.from_sv 0 ⟨1, 2, 3⟩)).mul_q
            (Quat.inverse ⟨3 / 5, ⟨4 / 5, 0, 0⟩⟩)).v := by
  have h : Quat.magnitude2 ⟨3 / 5, ⟨4 / 5, 0, 0⟩⟩ = 1 := by
    norm_num [Quat.magnitude2, Vec3.magnitude2, Vec3.dot]
  exact ⟨h, c8_mul_v_eq_sandwich _ _ h⟩

/-- Claim C10: `direction` and `ray_to` on `Point2` and `Point3` normalize the
displacement with no degeneracy guard: for distinct points the result is a
well-defined unit vector (and `ray_to` pairs the start point with it), while
for `other = self` the magnitude fed to the normalization is `0`, so the
normalization divides by zero. -/
theorem c10_direction_normalizes_without_guard (p q : Point3) (r s : Point2)
    (hpq : p ≠ q) (hrs : r ≠ s) :
    (Point3.displacement p p).magnitude = 0 ∧
    (Point2.displacement r r).magnitude = 0 ∧
    (Point3.displacement q p).magnitude ≠ 0 ∧
    (Point3.direction p q).magnitude = 1 ∧
    Point3.ray_to p q = ⟨p, Point3.direction p q⟩ ∧
    (Point2.displacement s r).magnitude ≠ 0 ∧
    (Point2.direction r s).magnitude = 1 ∧
    Point2.ray_to r s = ⟨r, Point2.direction r s⟩ := by
  have hpos3 : 0 < (Point3.displacement q p).magnitude2 := by
    apply Vec3.magnitude2_pos
    rintro ⟨h1, h2, h3⟩
    apply hpq
    simp only [Point3.displacement] at h1 h2 h3
    ext <;> dsimp <;> linarith
  have hpos2 : 0 < (Point2.displacement s r).magnitude2 := by
    apply Vec2.magnitude2_pos_dim2
    rintro ⟨h1, h2⟩
    apply hrs
    simp only [Point2.displacement] at h1 h2
    ext <;> dsimp <;> linarith
  refine ⟨?_, ?_, ?_, ?_, rfl, ?_, ?_, rfl⟩
  · simp [Point3.displacement, Vec3.magnitude, Vec3.magnitude2, Vec3.dot]
  · simp [Point2.displacement, Vec2.magnitude, Vec2.magnitude2, Vec2.dot]
  · exact ne_of_gt (Real.sqrt_pos.mpr hpos3)
  · exact Vec3.magnitude_normalize _ hpos3
  · exact ne_of_gt (Real.sqrt_pos.mpr hpos2)
  · exact Vec2.magnitude_normalize_dim2 _ hpos2

theorem c10_direction_normalizes_without_guard_witness :
    ((Point3.mk 0 0 0 ≠ Point3.mk 1 0 0) ∧ (Point2.mk 0 0 ≠ Point2.mk 1 0)) ∧
      ((Point3.displacement ⟨0, 0, 0⟩ ⟨0, 0, 0⟩).magnitude = 0 ∧
        (Point2.displacement ⟨0, 0⟩ ⟨0, 0⟩).magnitude = 0 ∧
        (Point3.displacement ⟨1, 0, 0⟩ ⟨0, 0, 0⟩).magnitude ≠ 0 ∧
        (Point3.direction ⟨0, 0, 0⟩ ⟨1, 0, 0⟩).magnitude = 1 ∧
        Point3.ray_to ⟨0, 0, 0⟩ ⟨1, 0, 0⟩ =
          ⟨⟨0, 0, 0⟩, Point3.direction ⟨0, 0, 0⟩ ⟨1, 0, 0⟩⟩ ∧
        (Point2.displacement ⟨1, 0⟩ ⟨0, 0⟩).magnitude ≠ 0 ∧
        (Point2.direction ⟨0, 0⟩ ⟨1, 0⟩).magnitude = 1 ∧
        Point2.ray_to ⟨0, 0⟩ ⟨1, 0⟩ = ⟨⟨0, 0⟩, Point2.direction ⟨0, 0⟩ ⟨1, 0⟩⟩) := by
  have h3 : Point3.mk 0 0 0 ≠ Point3.mk 1 0 0 := by
    intro h
    have := congrArg Point3.x h
    norm_num at this
  have h2 : Point2.mk 0 0 ≠ Point2.mk 1 0 := by
    intro h
    have := congrArg Point2.x h
    norm_num at this
  exact ⟨⟨h3, h2⟩, c10_direction_normalizes_without_guard _ _ _ _ h3 h2⟩

end
